import Mathlib

/-!
Verification of the HemonChat frontend chat client (src/app/page.tsx).

The development shallowly embeds the two stateful components of the page:

* the streaming response assembler inside `handleSubmit` (a rolling text
  buffer split on the blank-line record separator, a model of the
  JSON.parse call applied to each `data: ` record, and the functional
  message-list updates), and
* the model-readiness poller `checkModelStatus` (throttle guard, status
  flag transitions, and the single pending re-check timer).

Text is modelled as `List Char`; byte streams as `List Nat`; the per-chunk
`new TextDecoder().decode(value)` call is modelled by a WHATWG UTF-8
decoder run from its initial state on each chunk, which is exactly what a
fresh decoder instance does.  Stateful React code is modelled by explicit
state passing: each `setMessages(prev => ...)` functional update becomes a
pure function of the current message list, applied in program order.
-/

namespace HemonChat

/-- Role of a chat message, from the `Message` interface of page.tsx. -/
inductive Role where
  | user
  | assistant
deriving DecidableEq

/-- A chat message: `{ role: user | assistant, content: text }`. -/
structure Message where
  role : Role
  content : List Char
deriving DecidableEq

/-- List helper: dropping the last element of a cons with nonempty tail. -/
theorem dropLast_cons_ne {α : Type _} (a : α) (l : List α) (h : l ≠ []) :
    (a :: l).dropLast = a :: l.dropLast := by
  cases l with
  | nil => exact absurd rfl h
  | cons b t => rfl

/-- List helper: `getLastD` of a singleton list is its element. -/
theorem getLastD_single {α : Type _} (a d : α) : [a].getLastD d = a := rfl

/-- List helper: `getLastD` of a nonempty list ignores the default. -/
theorem getLastD_ne_nil {α : Type _} (l : List α) (d e : α) (h : l ≠ []) :
    l.getLastD d = l.getLastD e := by
  cases l with
  | nil => exact absurd rfl h
  | cons b t => rw [List.getLastD_cons, List.getLastD_cons]

/-- List helper: `getLastD` over an append with nonempty right part. -/
theorem getLastD_append_ne {α : Type _} (xs ys : List α) (d : α) (h : ys ≠ []) :
    (xs ++ ys).getLastD d = ys.getLastD d := by
  induction xs generalizing d with
  | nil => rfl
  | cons a xs ih =>
      rw [List.cons_append, List.getLastD_cons, ih a]
      exact getLastD_ne_nil ys a d h

/-- List helper: `dropLast` over an append with nonempty right part. -/
theorem dropLast_append_ne {α : Type _} (xs ys : List α) (h : ys ≠ []) :
    (xs ++ ys).dropLast = xs ++ ys.dropLast := by
  induction xs with
  | nil => rfl
  | cons a xs ih =>
      have hne : xs ++ ys ≠ [] := by
        intro hc
        rcases List.append_eq_nil.mp hc with ⟨-, h2⟩
        exact h h2
      rw [List.cons_append, dropLast_cons_ne a (xs ++ ys) hne, ih, List.cons_append]

/--
Model of `buffer.split('\n\n')` (line 154 of page.tsx): split a character
list at every leftmost non-overlapping occurrence of the two-character
record separator, returning the separated segments.  As with the
JavaScript `String.prototype.split`, the result is never empty and the
final segment is the not-yet-terminated tail.
-/
def splitSep : List Char → List (List Char)
  | [] => [[]]
  | [c] => [[c]]
  | c :: d :: rest =>
    if c = '\n' ∧ d = '\n' then
      [] :: splitSep rest
    else
      match splitSep (d :: rest) with
      | [] => [[c]]
      | s :: ss => (c :: s) :: ss

/-- The splitter always returns at least one segment. -/
theorem splitSep_ne_nil : ∀ l : List Char, splitSep l ≠ []
  | [] => by simp [splitSep]
  | [c] => by simp [splitSep]
  | c :: d :: rest => by
      simp only [splitSep]
      split
      · simp
      · split <;> simp

/-- A single-segment split means the input had no separator: the segment is
the whole input. -/
theorem splitSep_singleton : ∀ (z s : List Char), splitSep z = [s] → s = z
  | [], s => by
      intro h
      injection h with h1 _
      exact h1.symm
  | [c], s => by
      intro h
      injection h with h1 _
      exact h1.symm
  | c :: d :: rest, s => by
      intro h
      simp only [splitSep] at h
      split at h
      · injection h with h1 h2
        exact absurd h2 (splitSep_ne_nil rest)
      · split at h
        · next heq => exact absurd heq (splitSep_ne_nil _)
        · next s' ss heq =>
            injection h with h1 h2
            subst h2
            have hs : s' = d :: rest := splitSep_singleton (d :: rest) s' heq
            rw [← h1, hs]

/--
Compositionality of the leftmost split: splitting `x ++ y` first yields all
complete segments of `x`, then the segments of the retained tail of `x`
glued to `y`.  This is the fact that makes the rolling-buffer algorithm of
lines 150-155 insensitive to chunk boundaries at the character level.
-/
theorem splitSep_append : ∀ (x y : List Char),
    splitSep (x ++ y) =
      (splitSep x).dropLast ++ splitSep ((splitSep x).getLastD [] ++ y)
  | [], y => by simp [splitSep]
  | [c], y => by simp [splitSep]
  | c :: d :: rest, y => by
      by_cases h : c = '\n' ∧ d = '\n'
      · obtain ⟨hc, hd⟩ := h
        subst hc; subst hd
        have e1 : splitSep ('\n' :: '\n' :: rest) = [] :: splitSep rest := by
          simp [splitSep]
        have e2 : splitSep ('\n' :: '\n' :: (rest ++ y)) = [] :: splitSep (rest ++ y) := by
          simp [splitSep]
        have ih := splitSep_append rest y
        have hnn := splitSep_ne_nil rest
        calc splitSep (('\n' :: '\n' :: rest) ++ y)
            = [] :: splitSep (rest ++ y) := e2
          _ = [] :: ((splitSep rest).dropLast ++
                splitSep ((splitSep rest).getLastD [] ++ y)) := by rw [ih]
          _ = (splitSep ('\n' :: '\n' :: rest)).dropLast ++
                splitSep ((splitSep ('\n' :: '\n' :: rest)).getLastD [] ++ y) := by
              rw [e1, dropLast_cons_ne _ _ hnn, List.getLastD_cons]
              simp
      · cases hsr : splitSep (d :: rest) with
        | nil => exact absurd hsr (splitSep_ne_nil _)
        | cons s ss =>
            have e1 : splitSep (c :: d :: rest) = (c :: s) :: ss := by
              simp only [splitSep]
              rw [if_neg h, hsr]
            have ih := splitSep_append (d :: rest) y
            rw [hsr] at ih
            cases ss with
            | nil =>
                have hs : s = d :: rest := splitSep_singleton _ _ hsr
                rw [e1]
                simp only [List.dropLast_single, getLastD_single, List.nil_append]
                rw [hs]
            | cons t ts =>
                simp only [List.dropLast_cons₂, List.getLastD_cons, List.cons_append] at ih
                have e2 : splitSep (c :: d :: (rest ++ y)) =
                    (c :: s) :: ((t :: ts).dropLast ++
                      splitSep (ts.getLastD t ++ y)) := by
                  simp only [splitSep]
                  rw [if_neg h, ih]
                have lhseq : (c :: d :: rest) ++ y = c :: d :: (rest ++ y) := rfl
                rw [lhseq, e2, e1]
                simp only [List.dropLast_cons₂, List.getLastD_cons, List.cons_append]

/-!
Model of the JavaScript built-in `JSON.parse` (line 160 of page.tsx) as a
fuel-indexed recursive-descent reader of RFC 8259 JSON text.  Values are
kept symbolic: number literals are stored as scanned (the protocol only
ever carries string payloads, so numeric normalisation is irrelevant to
the claims), objects keep their field list in order (a later duplicate key
shadows an earlier one at lookup, as in JavaScript).
-/

/-- JSON values as produced by the modelled `JSON.parse`. -/
inductive Json where
  | jnull
  | jbool (b : Bool)
  | jnum (lit : List Char)
  | jstr (s : List Char)
  | jarr (elems : List Json)
  | jobj (fields : List (List Char × Json))

/-- Opening brace character, written by code point to keep it out of
string literals. -/
def lbrace : Char := Char.ofNat 123

/-- Closing brace character. -/
def rbrace : Char := Char.ofNat 125

/-- JSON insignificant whitespace (RFC 8259: space, tab, LF, CR). -/
def jsonWsChar (c : Char) : Bool :=
  c = ' ' || c = '\t' || c = '\n' || c = '\r'

/-- Skip insignificant whitespace. -/
def skipWs (l : List Char) : List Char := l.dropWhile jsonWsChar

/-- Value of a hexadecimal digit, if any. -/
def hexVal (c : Char) : Option Nat :=
  if '0' ≤ c ∧ c ≤ '9' then some (c.toNat - 48)
  else if 'a' ≤ c ∧ c ≤ 'f' then some (c.toNat - 87)
  else if 'A' ≤ c ∧ c ≤ 'F' then some (c.toNat - 55)
  else none

/-- Read the body of a JSON string after the opening quote, handling the
escape sequences of RFC 8259; raw control characters are rejected.  The
fuel always exceeds the input length, so it never runs out. -/
def parseStringBody : Nat → List Char → Option (List Char × List Char)
  | 0, _ => none
  | _ + 1, [] => none
  | fuel + 1, c :: rest =>
    if c = '\"' then some ([], rest)
    else if c = '\\' then
      match rest with
      | [] => none
      | e :: rest2 =>
        if e = '\"' then
          (parseStringBody fuel rest2).map (fun p => ('\"' :: p.1, p.2))
        else if e = '\\' then
          (parseStringBody fuel rest2).map (fun p => ('\\' :: p.1, p.2))
        else if e = '/' then
          (parseStringBody fuel rest2).map (fun p => ('/' :: p.1, p.2))
        else if e = 'b' then
          (parseStringBody fuel rest2).map (fun p => (Char.ofNat 8 :: p.1, p.2))
        else if e = 'f' then
          (parseStringBody fuel rest2).map (fun p => (Char.ofNat 12 :: p.1, p.2))
        else if e = 'n' then
          (parseStringBody fuel rest2).map (fun p => ('\n' :: p.1, p.2))
        else if e = 'r' then
          (parseStringBody fuel rest2).map (fun p => ('\r' :: p.1, p.2))
        else if e = 't' then
          (parseStringBody fuel rest2).map (fun p => ('\t' :: p.1, p.2))
        else if e = 'u' then
          match rest2 with
          | h1 :: h2 :: h3 :: h4 :: rest3 =>
            match hexVal h1, hexVal h2, hexVal h3, hexVal h4 with
            | some a, some b, some c2, some d =>
              (parseStringBody fuel rest3).map
                (fun p => (Char.ofNat (((a * 16 + b) * 16 + c2) * 16 + d) :: p.1, p.2))
            | _, _, _, _ => none
          | _ => none
        else none
    else if c.toNat < 32 then none
    else (parseStringBody fuel rest).map (fun p => (c :: p.1, p.2))

/-- Scan an optional JSON fraction part. -/
def scanFrac : List Char → Option (List Char × List Char)
  | '.' :: r =>
    match r.span Char.isDigit with
    | ([], _) => none
    | (ds, r2) => some ('.' :: ds, r2)
  | l => some ([], l)

/-- Scan an optional JSON exponent part. -/
def scanExp : List Char → Option (List Char × List Char)
  | [] => some ([], [])
  | c :: r =>
    if c = 'e' ∨ c = 'E' then
      match r with
      | '+' :: r2 =>
        match r2.span Char.isDigit with
        | ([], _) => none
        | (ds, r3) => some (c :: '+' :: ds, r3)
      | '-' :: r2 =>
        match r2.span Char.isDigit with
        | ([], _) => none
        | (ds, r3) => some (c :: '-' :: ds, r3)
      | _ =>
        match r.span Char.isDigit with
        | ([], _) => none
        | (ds, r3) => some (c :: ds, r3)
    else some ([], c :: r)

/-- Scan a JSON number literal (sign, integer part without a redundant
leading zero, optional fraction and exponent), returned as its spelling. -/
def scanNumberLit (l : List Char) : Option (List Char × List Char) :=
  let sl : List Char × List Char :=
    match l with
    | '-' :: r => (['-'], r)
    | _ => ([], l)
  match sl.2.span Char.isDigit with
  | ([], _) => none
  | (ip, l2) =>
    if 1 < ip.length ∧ ip.headD 'x' = '0' then none
    else
      match scanFrac l2 with
      | none => none
      | some (fp, l3) =>
        match scanExp l3 with
        | none => none
        | some (ep, l4) => some (sl.1 ++ ip ++ fp ++ ep, l4)

/-- Array tail reader: parses `value (, value)* ]` using the supplied
value reader for the elements; recursion is on its own fuel so the whole
parser stays structurally recursive (and hence kernel-reducible). -/
def elemsLoop (pv : List Char → Option (Json × List Char)) :
    Nat → List Char → Option (List Json × List Char)
  | 0, _ => none
  | fuel + 1, l =>
    match pv l with
    | none => none
    | some (v, r) =>
      match skipWs r with
      | [] => none
      | c :: r2 =>
        if c = ',' then
          (elemsLoop pv fuel r2).map (fun p => (v :: p.1, p.2))
        else if c = ']' then some ([v], r2)
        else none

/-- Object member reader: parses `"key" : value (, members)* closing`
using the supplied value reader. -/
def membersLoop (pv : List Char → Option (Json × List Char)) :
    Nat → List Char → Option (List (List Char × Json) × List Char)
  | 0, _ => none
  | fuel + 1, l =>
    match skipWs l with
    | [] => none
    | q :: r =>
      if q = '\"' then
        match parseStringBody (r.length + 1) r with
        | none => none
        | some (k, r1) =>
          match skipWs r1 with
          | ':' :: r2 =>
            match pv r2 with
            | none => none
            | some (v, r3) =>
              match skipWs r3 with
              | [] => none
              | c :: r4 =>
                if c = ',' then
                  (membersLoop pv fuel r4).map (fun p => ((k, v) :: p.1, p.2))
                else if c = rbrace then some ([(k, v)], r4)
                else none
          | _ => none
      else none

/-- Parse one JSON value (after skipping leading whitespace), returning
the value and the unconsumed remainder. -/
def parseValue : Nat → List Char → Option (Json × List Char)
  | 0, _ => none
  | fuel + 1, l =>
    match skipWs l with
    | [] => none
    | c :: rest =>
      if c = 'n' then
        match rest with
        | 'u' :: 'l' :: 'l' :: r => some (.jnull, r)
        | _ => none
      else if c = 't' then
        match rest with
        | 'r' :: 'u' :: 'e' :: r => some (.jbool true, r)
        | _ => none
      else if c = 'f' then
        match rest with
        | 'a' :: 'l' :: 's' :: 'e' :: r => some (.jbool false, r)
        | _ => none
      else if c = '\"' then
        (parseStringBody (rest.length + 1) rest).map (fun p => (.jstr p.1, p.2))
      else if c = '[' then
        match skipWs rest with
        | ']' :: r2 => some (.jarr [], r2)
        | _ => (elemsLoop (parseValue fuel) (rest.length + 1) rest).map
            (fun p => (.jarr p.1, p.2))
      else if c = lbrace then
        match skipWs rest with
        | [] => none
        | c2 :: r2 =>
          if c2 = rbrace then some (.jobj [], r2)
          else (membersLoop (parseValue fuel) (rest.length + 1) rest).map
            (fun p => (.jobj p.1, p.2))
      else
        match scanNumberLit (c :: rest) with
        | none => none
        | some (lit, r) => some (.jnum lit, r)

/-- Model of `JSON.parse` on a character list: parse one value and require
that only whitespace remains, otherwise fail (throw). -/
def jsonParse (l : List Char) : Option Json :=
  match parseValue (2 * l.length + 4) l with
  | none => none
  | some (v, r) => if skipWs r = [] then some v else none

/-- Last-duplicate-wins field lookup, as in a JavaScript object built by
`JSON.parse` where a later duplicate key overwrites an earlier one. -/
def lookupLastField : List (List Char × Json) → List Char → Option Json
  | [], _ => none
  | (k, v) :: rest, key =>
    match lookupLastField rest key with
    | some r => some r
    | none => if k = key then some v else none

/-- Model of the property access `data.content`: defined only on objects
(`data.content` on a parsed array, string, number or boolean is
`undefined`, and on `null` it throws, which the surrounding catch turns
into the same discarded outcome). -/
def jGetField (j : Json) (key : List Char) : Option Json :=
  match j with
  | .jobj fields => lookupLastField fields key
  | _ => none

/-- Render test for the item of an array during JavaScript string
coercion: `null` renders empty inside `Array.prototype.join`. -/
def arrItemTag : Json → Bool
  | .jnull => true
  | _ => false

/-- Join array items with commas for string coercion, null items
rendering empty. -/
def arrJoin (jt : Json → List Char) : List Json → List Char
  | [] => []
  | [e] => if arrItemTag e then [] else jt e
  | e :: rest => (if arrItemTag e then [] else jt e) ++ ',' :: arrJoin jt rest

/-- Model of the JavaScript string coercion applied by
`lastMessage.content + data.content` (line 173).  Strings pass through;
booleans and null render as their keywords; numbers render as their
scanned literal (the claims only exercise string payloads); arrays join
their items with commas; plain objects render as the fixed object tag.
Fuel-indexed so the definition stays kernel-reducible. -/
def jsToTextF : Nat → Json → List Char
  | 0, _ => []
  | _ + 1, .jnull => 'n' :: 'u' :: 'l' :: 'l' :: []
  | _ + 1, .jbool true => 't' :: 'r' :: 'u' :: 'e' :: []
  | _ + 1, .jbool false => 'f' :: 'a' :: 'l' :: 's' :: 'e' :: []
  | _ + 1, .jnum lit => lit
  | _ + 1, .jstr s => s
  | fuel + 1, .jarr xs => arrJoin (jsToTextF fuel) xs
  | _ + 1, .jobj _ => ("[object Object]").toList

/-- JavaScript string coercion of a value parsed out of a record of
`n` characters: a value scanned from `n` characters nests fewer than
`n + 1` arrays deep, so `n + 1` fuel always suffices. -/
def jsToText (n : Nat) (j : Json) : List Char := jsToTextF (n + 1) j

/-!
The streaming response assembler of `handleSubmit` (lines 142-183 of
page.tsx): rolling buffer, record extraction, and message updates.
-/

/-- The six-character record tag `data: ` checked by
`message.startsWith('data: ')` (line 158). -/
def dataMark : List Char := ("data: ").toList

/-- The key of the delta field accessed as `data.content` (line 163). -/
def contentKey : List Char := ("content").toList

/-- Model of the functional update at lines 165-176: drop the last
message, then push it back with the delta appended to its content; when
the list is empty a fresh assistant message is synthesised (the
`prev[prev.length - 1] || ...` fallback). -/
def applyDelta (msgs : List Message) (delta : List Char) : List Message :=
  msgs.dropLast ++
    [{ msgs.getLastD { role := .assistant, content := [] } with
        content := (msgs.getLastD { role := .assistant, content := [] }).content ++ delta }]

/-- Model of one iteration of the record loop (lines 157-181): a record
carrying the `data: ` tag has its remainder parsed as JSON; a parse
failure is logged and discarded; a parsed object with a `content` field
has that field appended to the last message. -/
def processRecord (msgs : List Message) (msg : List Char) : List Message :=
  if dataMark.isPrefixOf msg then
    match jsonParse (msg.drop 6) with
    | some jdata =>
      match jGetField jdata contentKey with
      | some v => applyDelta msgs (jsToText msg.length v)
      | none => msgs
    | none => msgs
  else msgs

/-- The delta a single record contributes, if any. -/
def recDelta (msg : List Char) : Option (List Char) :=
  if dataMark.isPrefixOf msg then
    match jsonParse (msg.drop 6) with
    | some jdata =>
      match jGetField jdata contentKey with
      | some v => some (jsToText msg.length v)
      | none => none
    | none => none
  else none

/-- Fold the record loop over a batch of complete records. -/
def processRecords (msgs : List Message) (recs : List (List Char)) : List Message :=
  recs.foldl processRecord msgs

/-- Assembler state: the rolling text buffer plus the message list. -/
structure AsmState where
  buffer : List Char
  messages : List Message
deriving DecidableEq

/-- Model of one loop iteration of the read loop (lines 148-183) at the
text level: append the decoded chunk to the buffer, split on the record
separator, retain the final segment as the new buffer (`messages.pop()`),
and process every complete record. -/
def feedText (st : AsmState) (text : List Char) : AsmState :=
  let parts := splitSep (st.buffer ++ text)
  { buffer := parts.getLastD []
    messages := processRecords st.messages parts.dropLast }

/-!
Byte level: `new TextDecoder().decode(value)` (line 149) constructs a
fresh decoder for every chunk, so each chunk is decoded independently by
a WHATWG UTF-8 decoder run from its initial state and flushed at the end
of the chunk (no `stream: true` option is passed).
-/

/-- The replacement character U+FFFD. -/
def repl : Char := Char.ofNat 0xFFFD

/-- Decoder state of the WHATWG UTF-8 decode algorithm. -/
structure DecState where
  cp : Nat
  seen : Nat
  needed : Nat
  lo : Nat
  hi : Nat

/-- Initial decoder state. -/
def initSt : DecState := { cp := 0, seen := 0, needed := 0, lo := 0x80, hi := 0xBF }

/-- WHATWG UTF-8 decode loop with replacement on error; a trailing
incomplete sequence is flushed to U+FFFD, as `TextDecoder.decode` does
when not in streaming mode.  An invalid continuation byte is reprocessed
from the initial state, so fuel `2 * length + 2` always suffices. -/
def utf8Loop : Nat → DecState → List Nat → List Char
  | 0, _, _ => []
  | _ + 1, st, [] => if st.needed ≠ 0 then [repl] else []
  | fuel + 1, st, b :: bs =>
    if st.needed = 0 then
      if b ≤ 0x7F then Char.ofNat b :: utf8Loop fuel st bs
      else if 0xC2 ≤ b ∧ b ≤ 0xDF then
        utf8Loop fuel { cp := b &&& 0x1F, seen := 0, needed := 1, lo := 0x80, hi := 0xBF } bs
      else if 0xE0 ≤ b ∧ b ≤ 0xEF then
        utf8Loop fuel
          { cp := b &&& 0xF, seen := 0, needed := 2,
            lo := if b = 0xE0 then 0xA0 else 0x80,
            hi := if b = 0xED then 0x9F else 0xBF } bs
      else if 0xF0 ≤ b ∧ b ≤ 0xF4 then
        utf8Loop fuel
          { cp := b &&& 0x7, seen := 0, needed := 3,
            lo := if b = 0xF0 then 0x90 else 0x80,
            hi := if b = 0xF4 then 0x8F else 0xBF } bs
      else repl :: utf8Loop fuel st bs
    else
      if st.lo ≤ b ∧ b ≤ st.hi then
        if st.seen + 1 = st.needed then
          Char.ofNat ((st.cp <<< 6) ||| (b &&& 0x3F)) :: utf8Loop fuel initSt bs
        else
          utf8Loop fuel
            { cp := (st.cp <<< 6) ||| (b &&& 0x3F), seen := st.seen + 1,
              needed := st.needed, lo := 0x80, hi := 0xBF } bs
      else repl :: utf8Loop fuel initSt (b :: bs)

/-- Decode one chunk with a fresh decoder, as the code does per chunk. -/
def utf8DecodeJS (bytes : List Nat) : List Char :=
  utf8Loop (2 * bytes.length + 2) initSt bytes

/-- One read-loop iteration at the byte level: decode the chunk with a
fresh decoder, then run the text-level iteration. -/
def feedBytes (st : AsmState) (bytes : List Nat) : AsmState :=
  feedText st (utf8DecodeJS bytes)

/-- UTF-8 encoding of one code point (used only to build test inputs). -/
def utf8Enc1 (n : Nat) : List Nat :=
  if n < 0x80 then [n]
  else if n < 0x800 then [0xC0 ||| (n >>> 6), 0x80 ||| (n &&& 0x3F)]
  else if n < 0x10000 then
    [0xE0 ||| (n >>> 12), 0x80 ||| ((n >>> 6) &&& 0x3F), 0x80 ||| (n &&& 0x3F)]
  else
    [0xF0 ||| (n >>> 18), 0x80 ||| ((n >>> 12) &&& 0x3F),
     0x80 ||| ((n >>> 6) &&& 0x3F), 0x80 ||| (n &&& 0x3F)]

/-- UTF-8 encoding of a character list (used only to build test inputs). -/
def utf8Enc (l : List Char) : List Nat :=
  l.foldr (fun c acc => utf8Enc1 c.toNat ++ acc) []

/-!
The submission controller `handleSubmit` (lines 108-197) around the
assembler, and the poller-independent page state it manipulates.
-/

/-- JavaScript whitespace as recognised by `String.prototype.trim`:
tab, LF, VT, FF, CR, space, NBSP, BOM, the Unicode space separators, and
the line/paragraph separators. -/
def isJsWs (c : Char) : Bool :=
  c.toNat = 0x9 || c.toNat = 0xA || c.toNat = 0xB || c.toNat = 0xC ||
  c.toNat = 0xD || c.toNat = 0x20 || c.toNat = 0xA0 || c.toNat = 0x1680 ||
  (0x2000 ≤ c.toNat && c.toNat ≤ 0x200A) || c.toNat = 0x2028 ||
  c.toNat = 0x2029 || c.toNat = 0x202F || c.toNat = 0x205F ||
  c.toNat = 0x3000 || c.toNat = 0xFEFF

/-- Model of `input.trim()`. -/
def jsTrim (l : List Char) : List Char :=
  ((l.dropWhile isJsWs).reverse.dropWhile isJsWs).reverse

/-- The fixed apology written over the open message on failure
(line 190). -/
def apologyText : List Char := ("Sorry, an error occurred. Please try again.").toList

/-- Model of the catch handler at lines 186-193: if the last message is an
assistant message, its content is replaced by the fixed apology; an empty
list is returned unchanged (unreachable in the submission flow, where the
placeholder has already been pushed). -/
def applyApology (msgs : List Message) : List Message :=
  match msgs.getLast? with
  | none => msgs
  | some m =>
    if m.role = .assistant then msgs.dropLast ++ [{ role := m.role, content := apologyText }]
    else msgs

/-- Page state touched by `handleSubmit`: the message list, the input
field, and the loading flag. -/
structure ChatState where
  messages : List Message
  input : List Char
  isLoading : Bool
deriving DecidableEq

/-- Outcome of the chat fetch: either the stream completes and delivers
its chunks, or an error is thrown (network failure, non-2xx response with
an error payload, unavailable reader, or a read failure) after some
prefix of the chunks was already processed. -/
inductive ChatOutcome where
  | ok (chunks : List (List Char))
  | err (processed : List (List Char))

/-- Model of `handleSubmit` (lines 108-197): a blank input returns
without any effect; otherwise the user message and an empty assistant
placeholder are appended, the input is cleared, the stream chunks are fed
through the assembler, the catch handler rewrites the open message on
error, and `finally` clears the loading flag.  The boolean records
whether a request was issued. -/
def handleSubmit (st : ChatState) (outcome : ChatOutcome) : ChatState × Bool :=
  if jsTrim st.input = [] then (st, false)
  else
    let msgs2 := (st.messages ++ [{ role := .user, content := st.input }]) ++
      [{ role := .assistant, content := [] }]
    match outcome with
    | .ok chunks =>
      let fin := chunks.foldl feedText { buffer := [], messages := msgs2 }
      ({ messages := fin.messages, input := [], isLoading := false }, true)
    | .err processed =>
      let fin := processed.foldl feedText { buffer := [], messages := msgs2 }
      ({ messages := applyApology fin.messages, input := [], isLoading := false }, true)

/-- Content of the open (last) message. -/
def lastContent (msgs : List Message) : List Char :=
  (msgs.getLastD { role := .assistant, content := [] }).content

/-!
The model-readiness poller `checkModelStatus` (lines 37-105 of page.tsx).
State variables are passed explicitly: `lastCheckTime` and `modelStatus`
are the React state values, `timeoutRef` is `checkTimeoutRef.current`
(the id of the most recently created timeout, which may have already
fired or been cleared), and `pending` is the set of timeouts that are
scheduled and not yet fired or cleared, tagged with their creation id and
scheduled fire time.  Browser timeout ids are positive, so ids start at 1
and `if (checkTimeoutRef.current)` is modelled by a match on the option.
-/

/-- The tri-state model status flag. -/
inductive ModelStatus where
  | loading
  | ready
  | error
deriving DecidableEq

/-- Poller state. -/
structure PollerState where
  lastCheckTime : Nat
  modelStatus : ModelStatus
  timeoutRef : Option Nat
  pending : List (Nat × Nat)
  nextId : Nat
deriving DecidableEq

/-- Initial poller state on mount. -/
def pollerInit : PollerState :=
  { lastCheckTime := 0, modelStatus := .loading, timeoutRef := none,
    pending := [], nextId := 1 }

/-- Outcome of one status request, covering the failure taxonomy of the
catch handler: a transport error from `fetch`, a non-2xx HTTP status
(thrown at line 60), malformed JSON from `response.json()`, or a parsed
payload `{ status: b }`. -/
inductive StatusResp where
  | netError
  | httpError
  | badJson
  | ok (status : Bool)
deriving DecidableEq

/-- The failure responses (everything the catch clause receives). -/
def StatusResp.isFailure : StatusResp → Bool
  | .netError => true
  | .httpError => true
  | .badJson => true
  | .ok _ => false

/-- Model of `if (checkTimeoutRef.current) clearTimeout(...)`: remove the
currently referenced timeout from the pending set, if one is referenced. -/
def clearRefTimeout (st : PollerState) : PollerState :=
  match st.timeoutRef with
  | none => st
  | some i => { st with pending := st.pending.filter (fun p => p.1 ≠ i) }

/-- Model of `checkTimeoutRef.current = setTimeout(checkModelStatus,
60000)`: create a fresh timeout due 60 seconds from now and remember its
id in the ref. -/
def scheduleCheck (st : PollerState) (now : Nat) : PollerState :=
  { st with pending := st.pending ++ [(st.nextId, now + 60000)],
            timeoutRef := some st.nextId, nextId := st.nextId + 1 }

/-- Model of one invocation of `checkModelStatus` (lines 38-95) given the
current time and the response the request would produce, with the guard
at lines 42-44 reading `lastCheckTime` as up-to-date explicit state — the
guard as written.  The program's actual invocations instead read the
closure-captured mount value of `lastCheckTime` (see
`checkModelStatusStale` below); the two definitions agree on every
invocation the program performs, because the captured value 0 makes the
guard false.  The boolean records whether a request was actually issued
(false only on the throttled early return). -/
def checkModelStatus (st : PollerState) (now : Nat) (resp : StatusResp) :
    PollerState × Bool :=
  if now - st.lastCheckTime < 60000 ∧ st.lastCheckTime ≠ 0 then (st, false)
  else
    let st1 := { st with lastCheckTime := now }
    match resp with
    | .ok true => (clearRefTimeout { st1 with modelStatus := .ready }, true)
    | .ok false => (scheduleCheck (clearRefTimeout st1) now, true)
    | _ => (scheduleCheck (clearRefTimeout { st1 with modelStatus := .error }) now, true)

/-- The value of `lastCheckTime` that the closure inside
`useEffect(..., [])` (lines 37-105) captures: the effect runs exactly
once, on mount, when the state is its initial value 0.  Every invocation
of `checkModelStatus` — the mount call at line 97 and every `setTimeout`
re-invocation, which call the same closure — reads this captured value;
`setLastCheckTime(currentTime)` at line 47 updates the React state but
never what the closure sees. -/
def mountLastCheckTime : Nat := 0

/-- Model of one invocation of `checkModelStatus` as the program actually
executes it: identical to `checkModelStatus` except that the guard at
lines 42-44 reads the closure-captured `mountLastCheckTime` instead of
the current state, so `lastCheckTime !== 0` is permanently false and the
early return is dead code.  The `setLastCheckTime` write at line 47 is
still performed on the state. -/
def checkModelStatusStale (st : PollerState) (now : Nat) (resp : StatusResp) :
    PollerState × Bool :=
  if now - mountLastCheckTime < 60000 ∧ mountLastCheckTime ≠ 0 then (st, false)
  else
    let st1 := { st with lastCheckTime := now }
    match resp with
    | .ok true => (clearRefTimeout { st1 with modelStatus := .ready }, true)
    | .ok false => (scheduleCheck (clearRefTimeout st1) now, true)
    | _ => (scheduleCheck (clearRefTimeout { st1 with modelStatus := .error }) now, true)

/-- Events driving the poller: a direct invocation (the mount call), a
pending timeout firing and running the check, and the unmount cleanup
(lines 100-104). -/
inductive PollerEvent where
  | invoke (now : Nat) (resp : StatusResp)
  | timerFire (now : Nat) (resp : StatusResp)
  | cleanup

/-- One poller step.  A firing timer is consumed from the pending set
before its callback runs. -/
def pollStep (st : PollerState) (e : PollerEvent) : PollerState :=
  match e with
  | .invoke now resp => (checkModelStatus st now resp).1
  | .timerFire now resp =>
    match st.pending with
    | [] => st
    | _ :: rest => (checkModelStatus { st with pending := rest } now resp).1
  | .cleanup => clearRefTimeout st

/-- The timer discipline invariant: at most one pending timeout, and any
pending timeout is the one held by the ref. -/
def TimerInv (st : PollerState) : Prop :=
  st.pending.length ≤ 1 ∧ ∀ p ∈ st.pending, st.timeoutRef = some p.1

/-!
Supporting lemmas about the assembler.
-/

/-- Concatenation of a list of texts. -/
def joinAll (ls : List (List Char)) : List Char := ls.foldr (fun a b => a ++ b) []

/-- Feeding two texts in sequence is feeding their concatenation: the
rolling buffer makes the record extraction insensitive to where the text
is cut. -/
theorem feedText_append (st : AsmState) (a b : List Char) :
    feedText (feedText st a) b = feedText st (a ++ b) := by
  have hp2 : splitSep ((splitSep (st.buffer ++ a)).getLastD [] ++ b) ≠ [] :=
    splitSep_ne_nil _
  simp only [feedText]
  rw [← List.append_assoc, splitSep_append (st.buffer ++ a) b]
  rw [getLastD_append_ne _ _ _ hp2, dropLast_append_ne _ _ hp2]
  simp only [processRecords, List.foldl_append]

/-- The record loop step applies exactly the record's delta, if any. -/
theorem processRecord_recDelta (msgs : List Message) (r : List Char) :
    processRecord msgs r =
      match recDelta r with
      | some d => applyDelta msgs d
      | none => msgs := by
  by_cases h : dataMark.isPrefixOf r
  · simp only [processRecord, recDelta, if_pos h]
    cases hj : jsonParse (r.drop 6) with
    | none => rfl
    | some jd => cases hg : jGetField jd contentKey <;> simp [hg]
  · simp [processRecord, recDelta, h]

/-- A delta lands on the last element of a nonempty message list. -/
theorem applyDelta_concat (pre : List Message) (m : Message) (d : List Char) :
    applyDelta (pre ++ [m]) d = pre ++ [{ role := m.role, content := m.content ++ d }] := by
  unfold applyDelta
  rw [List.dropLast_concat, List.getLastD_concat]

/-- A record without a delta leaves the message list unchanged. -/
theorem processRecord_noneL (msgs : List Message) (r : List Char)
    (h : recDelta r = none) : processRecord msgs r = msgs := by
  rw [processRecord_recDelta, h]

/-- A record with a delta applies exactly that delta. -/
theorem processRecord_someL (msgs : List Message) (r d : List Char)
    (h : recDelta r = some d) : processRecord msgs r = applyDelta msgs d := by
  rw [processRecord_recDelta, h]

/-- Processing a batch of records appends the concatenation of their
deltas, in order, to the content of the last message, and touches nothing
else. -/
theorem processRecords_shape : ∀ (recs : List (List Char)) (pre : List Message) (m : Message),
    processRecords (pre ++ [m]) recs =
      pre ++ [{ role := m.role,
                content := m.content ++ joinAll (recs.filterMap recDelta) }]
  | [], pre, m => by simp [processRecords, joinAll]
  | r :: rs, pre, m => by
      simp only [processRecords, List.foldl_cons]
      cases hr : recDelta r with
      | none =>
          rw [processRecord_noneL _ _ hr]
          have ih := processRecords_shape rs pre m
          simp only [processRecords] at ih
          simp only [ih, List.filterMap_cons, hr]
      | some d =>
          rw [processRecord_someL _ _ _ hr, applyDelta_concat]
          have ih := processRecords_shape rs pre
            { role := m.role, content := m.content ++ d }
          simp only [processRecords] at ih
          simp only [ih, List.filterMap_cons, hr, joinAll, List.foldr_cons,
            List.append_assoc]

/-- Feeding any chunk sequence preserves the shape `front ++ [open]` of
the message list, changing only the open message's content. -/
theorem foldl_feedText_shape :
    ∀ (chunks : List (List Char)) (buf : List Char) (pre : List Message) (m : Message),
    ∃ c, (chunks.foldl feedText { buffer := buf, messages := pre ++ [m] }).messages
      = pre ++ [{ role := m.role, content := c }]
  | [], buf, pre, m => ⟨m.content, by simp⟩
  | ch :: chs, buf, pre, m => by
      simp only [List.foldl_cons]
      have hstep : feedText { buffer := buf, messages := pre ++ [m] } ch = { buffer := (splitSep (buf ++ ch)).getLastD [], messages := pre ++ [{ role := m.role, content := m.content ++ joinAll ((splitSep (buf ++ ch)).dropLast.filterMap recDelta) }] } := by
        simp only [feedText]
        rw [processRecords_shape]
      rw [hstep]
      exact foldl_feedText_shape chs _ pre _

/-- Blank inputs trim to the empty string. -/
theorem jsTrim_blank (l : List Char) (h : l.all isJsWs = true) : jsTrim l = [] := by
  have hdrop : ∀ t : List Char, t.all isJsWs = true → t.dropWhile isJsWs = [] := by
    intro t
    induction t with
    | nil => intro _; rfl
    | cons c t ih =>
        intro hc
        rw [List.all_cons, Bool.and_eq_true] at hc
        rw [List.dropWhile_cons_of_pos hc.1]
        exact ih hc.2
  unfold jsTrim
  rw [hdrop l h]
  rfl

/-!
Supporting lemmas about the poller.
-/

/-- Under the timer invariant, clearing the referenced timeout empties
the pending set and changes nothing else. -/
theorem clearRef_eq (st : PollerState) (h : TimerInv st) :
    clearRefTimeout st = { st with pending := [] } := by
  obtain ⟨lc, ms, tr, pend, ni⟩ := st
  obtain ⟨hlen, href⟩ := h
  cases tr with
  | none =>
      cases pend with
      | nil => rfl
      | cons p t =>
          exact absurd (href p (List.mem_cons_self p t)) (by simp)
  | some i =>
      have hfil : pend.filter (fun p => p.1 ≠ i) = [] := by
        rw [List.filter_eq_nil_iff]
        intro a ha
        have h2 := href a ha
        simp only [Option.some.injEq] at h2
        simp [h2]
      show ({ lastCheckTime := lc, modelStatus := ms, timeoutRef := some i, pending := pend.filter (fun p => p.1 ≠ i), nextId := ni } : PollerState) = _
      rw [hfil]

/-- One invocation of the check preserves the timer invariant. -/
theorem check_inv (st : PollerState) (now : Nat) (resp : StatusResp)
    (h : TimerInv st) : TimerInv (checkModelStatus st now resp).1 := by
  by_cases hc : now - st.lastCheckTime < 60000 ∧ st.lastCheckTime ≠ 0
  · unfold checkModelStatus
    rw [if_pos hc]
    exact h
  · have h1 : TimerInv { st with lastCheckTime := now } := h
    have h2 : TimerInv { st with lastCheckTime := now, modelStatus := ModelStatus.ready } := h
    have h3 : TimerInv { st with lastCheckTime := now, modelStatus := ModelStatus.error } := h
    cases resp with
    | ok b =>
        cases b with
        | true =>
            unfold checkModelStatus
            rw [if_neg hc]
            dsimp only
            rw [clearRef_eq _ h2]
            exact ⟨by simp, by simp⟩
        | false =>
            unfold checkModelStatus
            rw [if_neg hc]
            dsimp only
            rw [clearRef_eq _ h1]
            exact ⟨by simp [scheduleCheck], by simp [scheduleCheck]⟩
    | netError =>
        unfold checkModelStatus
        rw [if_neg hc]
        dsimp only
        rw [clearRef_eq _ h3]
        exact ⟨by simp [scheduleCheck], by simp [scheduleCheck]⟩
    | httpError =>
        unfold checkModelStatus
        rw [if_neg hc]
        dsimp only
        rw [clearRef_eq _ h3]
        exact ⟨by simp [scheduleCheck], by simp [scheduleCheck]⟩
    | badJson =>
        unfold checkModelStatus
        rw [if_neg hc]
        dsimp only
        rw [clearRef_eq _ h3]
        exact ⟨by simp [scheduleCheck], by simp [scheduleCheck]⟩

/-- Every poller step preserves the timer invariant. -/
theorem pollStep_inv (st : PollerState) (e : PollerEvent)
    (h : TimerInv st) : TimerInv (pollStep st e) := by
  cases e with
  | invoke now resp => exact check_inv st now resp h
  | timerFire now resp =>
      show TimerInv (match st.pending with
        | [] => st
        | _ :: rest => (checkModelStatus { st with pending := rest } now resp).1)
      obtain ⟨hlen, href⟩ := h
      cases hp : st.pending with
      | nil => exact ⟨hlen, href⟩
      | cons p rest =>
          have hl : rest.length ≤ 1 := by
            have hl2 := hp ▸ hlen
            simp only [List.length_cons] at hl2
            omega
          exact check_inv { st with pending := rest } now resp
            ⟨hl, fun q hq => href q (by rw [hp]; exact List.mem_cons_of_mem p hq)⟩
  | cleanup =>
      show TimerInv (clearRefTimeout st)
      obtain ⟨hlen, href⟩ := h
      cases hr : st.timeoutRef with
      | none =>
          simp only [clearRefTimeout, hr]
          exact ⟨hlen, href⟩
      | some i =>
          simp only [clearRefTimeout, hr]
          constructor
          · exact le_trans (List.length_filter_le _ _) hlen
          · intro q hq
            exact hr ▸ href q (List.mem_of_mem_filter hq)

/-- The invariant holds after any event sequence from the initial
state. -/
theorem foldl_inv : ∀ (es : List PollerEvent) (st : PollerState),
    TimerInv st → TimerInv (es.foldl pollStep st)
  | [], _, h => h
  | e :: es, st, h => foldl_inv es _ (pollStep_inv st e h)

/-!
Concrete inputs used by the claims and witnesses.
-/

/-- Byte chunk ending in the middle of the two-byte UTF-8 encoding of
U+00E9: the tag, the JSON opening, and the lead byte 0xC3. -/
def bugChunkA : List Nat := utf8Enc (("data: \x7b\"content\":\"").toList) ++ [0xC3]

/-- The matching second byte chunk: the continuation byte 0xA9 followed
by the closing of the record and the separator. -/
def bugChunkB : List Nat := [0xA9] ++ utf8Enc (("\"\x7d\n\n").toList)

/-- Assembler state with one open assistant placeholder. -/
def byteStart : AsmState :=
  { buffer := [], messages := [{ role := .assistant, content := [] }] }

/-- First chunk of the split-separator example: the record is cut inside
the payload, before its terminator. -/
def chunkHel : List Char := ("data: \x7b\"content\":\"Hel").toList

/-- Second chunk: the rest of the payload and the full separator. -/
def chunkLo : List Char := ("lo\"\x7d\n\n").toList

/-- A valid record carrying delta `A`. -/
def recHiA : List Char := ("data: \x7b\"content\":\"A\"\x7d").toList

/-- A valid record carrying delta `B`. -/
def recHiB : List Char := ("data: \x7b\"content\":\"B\"\x7d").toList

/-- A record with the tag but a malformed JSON payload. -/
def recBad : List Char := ("data: \x7boops").toList

/-- A message list with one open assistant message. -/
def msgs0 : List Message := [{ role := .assistant, content := [] }]

/-- The poller state after the program's first check, performed at time
1000 with a not-ready response: `lastCheckTime` is 1000, so a check has
been performed, and one re-check is pending. -/
def staleSt1 : PollerState := (checkModelStatusStale pollerInit 1000 (.ok false)).1

/-!
The claims.
-/

/-- Claim C1: the spec asks that any byte-level chunking of a stream of
complete records — including cuts inside a multi-byte UTF-8 character —
yield the same final content as feeding the concatenation at once.  The
code instead constructs a fresh `TextDecoder` per chunk without
`stream: true`, so a two-byte character cut across chunks decodes as two
U+FFFD replacement characters while the single-chunk feed decodes it
intact: the two runs disagree on this concrete input. -/
theorem byte_split_divergence :
    lastContent (([bugChunkA, bugChunkB].foldl feedBytes byteStart).messages) = [repl, repl]
    ∧ lastContent (([bugChunkA ++ bugChunkB].foldl feedBytes byteStart).messages)
        = [Char.ofNat 0xE9]
    ∧ lastContent (([bugChunkA, bugChunkB].foldl feedBytes byteStart).messages) ≠
        lastContent (([bugChunkA ++ bugChunkB].foldl feedBytes byteStart).messages) := by
  decide

/-- Claim C2: a record separator split exactly between two consecutive
chunks loses nothing and duplicates nothing — feeding a chunk ending in
the first newline and a chunk starting with the second is the same as
feeding the text with the separator intact; in particular the two-chunk
example yields the final open-message content `Hello`. -/
theorem sep_split_exact_once :
    (∀ (st : AsmState) (a b : List Char),
      feedText (feedText st (a ++ ['\n'])) ('\n' :: b) =
        feedText st (a ++ '\n' :: '\n' :: b))
    ∧ lastContent ((handleSubmit { messages := [], input := ("Hi").toList, isLoading := false }
        (.ok [chunkHel, chunkLo])).1.messages) = ("Hello").toList := by
  constructor
  · intro st a b
    rw [feedText_append]
    rw [List.append_assoc]
    rfl
  · decide

/-- Claim C3: a record with the `data: ` tag whose JSON payload is
malformed is discarded on its own — processing any batch with it inserted
is processing the batch without it, so the stream is not aborted and all
later valid records still land. -/
theorem malformed_record_skipped (msgs : List Message) (r1 : List (List Char))
    (bad : List Char) (r2 : List (List Char))
    (h1 : dataMark.isPrefixOf bad = true) (h2 : jsonParse (bad.drop 6) = none) :
    processRecords msgs (r1 ++ bad :: r2) = processRecords msgs (r1 ++ r2) := by
  simp only [processRecords, List.foldl_append, List.foldl_cons]
  rw [show processRecord (List.foldl processRecord msgs r1) bad
      = List.foldl processRecord msgs r1 from by
    unfold processRecord
    rw [if_pos h1, h2]]

/-- Witness for C3 at a concrete malformed record between two valid
records. -/
theorem malformed_record_skipped_witness :
    dataMark.isPrefixOf recBad = true ∧ jsonParse (recBad.drop 6) = none ∧
    processRecords msgs0 ([recHiA] ++ recBad :: [recHiB]) =
      processRecords msgs0 ([recHiA] ++ [recHiB]) :=
  ⟨by decide, by rfl,
    malformed_record_skipped msgs0 [recHiA] recBad [recHiB] (by decide) (by rfl)⟩

/-- Claim C4: the claim says an invocation fewer than 60 seconds after
the most recently performed check, once at least one check has run, is a
no-op — no request issued, state untouched, no timer scheduled.  The
program violates this: `checkModelStatus` is created once inside
`useEffect(..., [])`, so the guard at line 42 forever reads the
closure-captured `lastCheckTime = 0` and `setLastCheckTime` never
updates that view — the throttle is dead code.  Concretely: after a
check performed at time 1000 (so `lastCheckTime` is 1000 and nonzero), a
second invocation 30 seconds later still issues a request and changes
the state (it reschedules the timer and rewrites `lastCheckTime`),
instead of being the claimed no-op. -/
theorem throttle_dead_code :
    staleSt1.lastCheckTime = 1000 ∧
    31000 - staleSt1.lastCheckTime < 60000 ∧ staleSt1.lastCheckTime ≠ 0 ∧
    (checkModelStatusStale staleSt1 31000 (.ok false)).2 = true ∧
    (checkModelStatusStale staleSt1 31000 (.ok false)).1 ≠ staleSt1 := by
  decide

/-- Claim C5: a successful response signalling readiness sets the flag to
`ready` and cancels the pending re-check timer, leaving none scheduled; a
successful response with status false leaves the flag `loading` and
leaves exactly one re-check pending 60 seconds later. -/
theorem status_response_transitions (st : PollerState) (now : Nat)
    (hInv : TimerInv st)
    (hrun : st.lastCheckTime = 0 ∨ 60000 ≤ now - st.lastCheckTime) :
    ((checkModelStatus st now (.ok true)).1.modelStatus = .ready ∧
      (checkModelStatus st now (.ok true)).1.pending = []) ∧
    (st.modelStatus = .loading →
      (checkModelStatus st now (.ok false)).1.modelStatus = .loading ∧
      (checkModelStatus st now (.ok false)).1.pending = [(st.nextId, now + 60000)]) := by
  have hcond : ¬(now - st.lastCheckTime < 60000 ∧ st.lastCheckTime ≠ 0) := by
    rcases hrun with h | h
    · exact fun hc => hc.2 h
    · exact fun hc => absurd hc.1 (by omega)
  have h1 : TimerInv { st with lastCheckTime := now } := hInv
  have h2 : TimerInv { st with lastCheckTime := now, modelStatus := ModelStatus.ready } := hInv
  constructor
  · unfold checkModelStatus
    rw [if_neg hcond]
    dsimp only
    rw [clearRef_eq _ h2]
    exact ⟨rfl, rfl⟩
  · intro hload
    unfold checkModelStatus
    rw [if_neg hcond]
    dsimp only
    rw [clearRef_eq _ h1]
    constructor
    · exact hload
    · simp [scheduleCheck]

/-- Witness for C5 at the initial state. -/
theorem status_response_transitions_witness :
    TimerInv pollerInit ∧
    (pollerInit.lastCheckTime = 0 ∨ 60000 ≤ 5 - pollerInit.lastCheckTime) ∧
    (((checkModelStatus pollerInit 5 (.ok true)).1.modelStatus = .ready ∧
      (checkModelStatus pollerInit 5 (.ok true)).1.pending = []) ∧
    (pollerInit.modelStatus = .loading →
      (checkModelStatus pollerInit 5 (.ok false)).1.modelStatus = .loading ∧
      (checkModelStatus pollerInit 5 (.ok false)).1.pending =
        [(pollerInit.nextId, 5 + 60000)])) :=
  ⟨⟨by simp [pollerInit], by simp [pollerInit]⟩, Or.inl rfl,
    status_response_transitions pollerInit 5
      ⟨by simp [pollerInit], by simp [pollerInit]⟩ (Or.inl rfl)⟩

/-- Claim C6: each failure kind — transport error, non-2xx status,
malformed JSON — sets the flag to `error` and leaves exactly one re-check
pending 60 seconds later, the same cadence as a not-ready result, so no
failure ends the polling. -/
theorem status_failure_retry (st : PollerState) (now : Nat) (resp : StatusResp)
    (hf : resp.isFailure = true) (hInv : TimerInv st)
    (hrun : st.lastCheckTime = 0 ∨ 60000 ≤ now - st.lastCheckTime) :
    (checkModelStatus st now resp).1.modelStatus = .error ∧
    (checkModelStatus st now resp).1.pending = [(st.nextId, now + 60000)] := by
  have hcond : ¬(now - st.lastCheckTime < 60000 ∧ st.lastCheckTime ≠ 0) := by
    rcases hrun with h | h
    · exact fun hc => hc.2 h
    · exact fun hc => absurd hc.1 (by omega)
  have h3 : TimerInv { st with lastCheckTime := now, modelStatus := ModelStatus.error } := hInv
  cases resp with
  | ok b => simp [StatusResp.isFailure] at hf
  | netError =>
      unfold checkModelStatus
      rw [if_neg hcond]
      dsimp only
      rw [clearRef_eq _ h3]
      exact ⟨rfl, by simp [scheduleCheck]⟩
  | httpError =>
      unfold checkModelStatus
      rw [if_neg hcond]
      dsimp only
      rw [clearRef_eq _ h3]
      exact ⟨rfl, by simp [scheduleCheck]⟩
  | badJson =>
      unfold checkModelStatus
      rw [if_neg hcond]
      dsimp only
      rw [clearRef_eq _ h3]
      exact ⟨rfl, by simp [scheduleCheck]⟩

/-- Witness for C6 at a concrete transport error from the initial
state. -/
theorem status_failure_retry_witness :
    StatusResp.netError.isFailure = true ∧ TimerInv pollerInit ∧
    (pollerInit.lastCheckTime = 0 ∨ 60000 ≤ 7 - pollerInit.lastCheckTime) ∧
    ((checkModelStatus pollerInit 7 .netError).1.modelStatus = .error ∧
      (checkModelStatus pollerInit 7 .netError).1.pending =
        [(pollerInit.nextId, 7 + 60000)]) :=
  ⟨rfl, ⟨by simp [pollerInit], by simp [pollerInit]⟩, Or.inl rfl,
    status_failure_retry pollerInit 7 .netError rfl
      ⟨by simp [pollerInit], by simp [pollerInit]⟩ (Or.inl rfl)⟩

/-- Claim C7: after any sequence of poller events from the initial state
— invocations, timer firings with any outcome, cleanup — at most one
pending re-check timer exists, because every scheduling path first clears
the referenced timer. -/
theorem single_pending_timer (es : List PollerEvent) :
    ((es.foldl pollStep pollerInit).pending).length ≤ 1 :=
  (foldl_inv es pollerInit ⟨by simp [pollerInit], by simp [pollerInit]⟩).1

/-- The message list after a failed submission: the user message, then
the assistant placeholder rewritten to the apology. -/
def failMessages (st : ChatState) : List Message :=
  st.messages ++ [{ role := .user, content := st.input }, { role := .assistant, content := apologyText }]

/-- Claim C8: any error thrown during the chat fetch or stream read
replaces the open assistant message's content with the fixed apology,
stops the stream with the loading flag cleared and no retry, and leaves
the session usable: a following submission with nonblank input again
issues a request. -/
theorem chat_error_apology (st : ChatState) (processed : List (List Char))
    (q : List Char) (o2 : ChatOutcome)
    (h1 : jsTrim st.input ≠ []) (h2 : jsTrim q ≠ []) :
    (handleSubmit st (.err processed)).2 = true ∧
    (handleSubmit st (.err processed)).1.isLoading = false ∧
    (handleSubmit st (.err processed)).1.messages = failMessages st ∧
    (handleSubmit { (handleSubmit st (.err processed)).1 with input := q } o2).2 = true := by
  have hmain : handleSubmit st (.err processed) =
      ({ messages := failMessages st, input := [], isLoading := false }, true) := by
    unfold handleSubmit
    rw [if_neg h1]
    dsimp only
    obtain ⟨c, hc⟩ := foldl_feedText_shape processed []
      (st.messages ++ [{ role := .user, content := st.input }])
      { role := .assistant, content := [] }
    rw [hc]
    simp [applyApology, failMessages, List.getLast?_concat, List.dropLast_concat,
      List.append_assoc]
  refine ⟨by rw [hmain], by rw [hmain], by rw [hmain], ?_⟩
  rw [hmain]
  cases o2 with
  | ok chunks =>
      unfold handleSubmit
      dsimp only
      rw [if_neg h2]
  | err p2 =>
      unfold handleSubmit
      dsimp only
      rw [if_neg h2]

/-- Concrete page state for the C8 witness. -/
def chatSt8 : ChatState := { messages := [], input := ('H' :: 'i' :: []), isLoading := false }

/-- Witness for C8 at a concrete failing submission followed by a fresh
one. -/
theorem chat_error_apology_witness :
    jsTrim chatSt8.input ≠ [] ∧ jsTrim ['Y'] ≠ [] ∧
    ((handleSubmit chatSt8 (.err [])).2 = true ∧
      (handleSubmit chatSt8 (.err [])).1.isLoading = false ∧
      (handleSubmit chatSt8 (.err [])).1.messages = failMessages chatSt8 ∧
      (handleSubmit { (handleSubmit chatSt8 (.err [])).1 with input := ['Y'] } (.ok [])).2
        = true) :=
  ⟨by decide, by decide,
    chat_error_apology chatSt8 [] ['Y'] (.ok []) (by decide) (by decide)⟩

/-- Claim C9: the deltas of a stream of valid data records are applied in
the order received, each against the current message list, so the final
open-message content is the placeholder content followed by the in-order
concatenation of every delta, and the earlier messages are untouched. -/
theorem deltas_in_order (recs : List (List Char)) (pre : List Message) (m : Message)
    (h : ∀ r ∈ recs, (recDelta r).isSome = true) :
    processRecords (pre ++ [m]) recs =
      pre ++ [{ role := m.role, content := m.content ++ joinAll (recs.filterMap recDelta) }] :=
  processRecords_shape recs pre m

/-- Witness for C9 at two concrete valid records. -/
theorem deltas_in_order_witness :
    (∀ r ∈ [recHiA, recHiB], (recDelta r).isSome = true) ∧
    processRecords [{ role := .assistant, content := [] }] [recHiA, recHiB] =
      [{ role := .assistant, content := joinAll ([recHiA, recHiB].filterMap recDelta) }] :=
  ⟨by decide,
    deltas_in_order [recHiA, recHiB] [] { role := .assistant, content := [] } (by decide)⟩

/-- Claim C10: submitting while the input is empty or all whitespace is a
no-op — the state (messages, input, loading flag) is returned unchanged
and no request is issued. -/
theorem blank_input_noop (st : ChatState) (outcome : ChatOutcome)
    (h : st.input.all isJsWs = true) :
    handleSubmit st outcome = (st, false) := by
  unfold handleSubmit
  rw [if_pos (jsTrim_blank st.input h)]

/-- Concrete page state for the C10 witness: whitespace-only input. -/
def chatSt10 : ChatState := { messages := [], input := [' ', '\t'], isLoading := false }

/-- Witness for C10 at a concrete whitespace input. -/
theorem blank_input_noop_witness :
    (chatSt10.input.all isJsWs = true) ∧
    handleSubmit chatSt10 (.ok []) = (chatSt10, false) :=
  ⟨by decide, blank_input_noop chatSt10 (.ok []) (by decide)⟩

end HemonChat
